import Mathlib

/-!
Shallow embedding of the KDL REPL core (src/kdl/app.js): the document
projection (`documentToJSON` / `nodeToJSON`), value formatting
(`formatValue`), HTML escaping, the tree renderer (`createNodeElement`),
the expand/collapse state (`toggleNode`), and the view-update state
machine (`updateViews`).
-/

/-- A KDL value as seen by the display layer.  JavaScript inspects values
dynamically (`typeof`); here that becomes a closed sum.  Numbers are
carried by their canonical string form (the result of JS `String(n)`),
and structured extension values by their `JSON.stringify` form, since the
display code only ever consumes those string forms. -/
inductive Value where
  | null
  | undef
  | str (s : String)
  | num (canonical : String)
  | bool (b : Bool)
  | structured (jsonForm : String)
deriving DecidableEq, Repr, Inhabited

/-- An entry of a node: `name` is `none` for an Argument and `some key`
for a Property (the parser may in principle supply an empty-string key,
which is why truthiness and the Argument/Property tag can differ). -/
structure Entry where
  name : Option String
  value : Value
deriving DecidableEq, Repr, Inhabited

/-- JS truthiness of `entry.name` as tested by `if (entry.name)` in
`nodeToJSON` and `createNodeElement`: `null`/absent and the empty string
are falsy, every other string is truthy. -/
def Entry.nameTruthy (e : Entry) : Bool :=
  match e.name with
  | some s => s != ""
  | none => false

/-- The Argument/Property tag of the data model: a Property carries a key
(possibly empty), an Argument carries none. -/
def Entry.isPropTagged (e : Entry) : Bool := e.name.isSome

/-- A parsed node: a name, its ordered entries, and optionally a nested
children document (`node.children.nodes` in the source; `none` models a
null `children`). -/
inductive Node where
  | mk (name : String) (entries : List Entry) (children : Option (List Node))

def Node.name : Node → String
  | .mk n _ _ => n

def Node.entries : Node → List Entry
  | .mk _ e _ => e

def Node.children : Node → Option (List Node)
  | .mk _ _ c => c

/-- `node.children && node.children.nodes && node.children.nodes.length > 0`. -/
def Node.hasChildren (n : Node) : Bool :=
  match n.children with
  | some ns => ns.length > 0
  | none => false

/-- A parsed document: an ordered list of top-level nodes. -/
structure Document where
  nodes : List Node

/-- A projected node, mirroring the plain object built by `nodeToJSON`:
`name` always present, the other three fields present exactly when the
source sets them.  The properties mapping is a JS object: an ordered
association list with unique keys, first-insertion order, last write
wins. -/
inductive ProjectedNode where
  | mk (name : String) (arguments : Option (List Value))
      (properties : Option (List (String × Value)))
      (children : Option (List ProjectedNode))

def ProjectedNode.name : ProjectedNode → String
  | .mk n _ _ _ => n

def ProjectedNode.arguments : ProjectedNode → Option (List Value)
  | .mk _ a _ _ => a

def ProjectedNode.properties : ProjectedNode → Option (List (String × Value))
  | .mk _ _ p _ => p

def ProjectedNode.children : ProjectedNode → Option (List ProjectedNode)
  | .mk _ _ _ c => c

/-- The projected document `{ nodes: [...] }`. -/
structure ProjectedDoc where
  nodes : List ProjectedNode

/-- JS object assignment `props[k] = v`: overwrite in place when the key
exists (keeping first-insertion key order), otherwise append. -/
def objInsert (m : List (String × Value)) (k : String) (v : Value) :
    List (String × Value) :=
  if m.any (fun p => p.1 == k) then
    m.map (fun p => if p.1 == k then (k, v) else p)
  else
    m ++ [(k, v)]

/-- JS property read `props[k]`. -/
def objGet (m : List (String × Value)) (k : String) : Option Value :=
  (m.find? (fun p => p.1 == k)).map Prod.snd

/-- One iteration of the `node.entries.forEach` loop in `nodeToJSON`:
truthy-named entries update the `props` object, the rest are pushed onto
the `args` array. -/
def entryStep (acc : List Value × List (String × Value)) (e : Entry) :
    List Value × List (String × Value) :=
  if e.nameTruthy then
    (acc.1, objInsert acc.2 (e.name.getD "") e.value)
  else
    (acc.1 ++ [e.value], acc.2)

/-- The whole `forEach` loop of `nodeToJSON`, starting from empty
`args`/`props`. -/
def collectEntries (entries : List Entry) : List Value × List (String × Value) :=
  entries.foldl entryStep ([], [])

mutual

/-- `nodeToJSON` (src/kdl/app.js lines 217-247). -/
def nodeToJSON : Node → ProjectedNode
  | .mk name entries children =>
    let ep : List Value × List (String × Value) :=
      if entries.length > 0 then collectEntries entries else ([], [])
    ProjectedNode.mk name
      (if ep.1.length > 0 then some ep.1 else none)
      (if ep.2.length > 0 then some ep.2 else none)
      (match children with
        | some ns => if ns.length > 0 then some (nodesToJSON ns) else none
        | none => none)

/-- `doc.nodes.map(nodeToJSON)`, written as explicit recursion so that the
mutual definition is structural. -/
def nodesToJSON : List Node → List ProjectedNode
  | [] => []
  | n :: ns => nodeToJSON n :: nodesToJSON ns

end

/-- `documentToJSON` (src/kdl/app.js lines 207-215): `none` models a null
document (`!doc || !doc.nodes` collapses to the same output). -/
def documentToJSON : Option Document → ProjectedDoc
  | none => ⟨[]⟩
  | some d => ⟨nodesToJSON d.nodes⟩

/-- The spec's name for the projection. -/
def project : Option Document → ProjectedDoc := documentToJSON

/-- Modelled from the spec: the source's `escapeHtml` (src/kdl/app.js
lines 188-192) delegates to the browser DOM (`textContent` assignment
followed by reading `innerHTML`), which is outside src/; the spec
requires that literal `&`, `<`, `>` never produce live markup, which is
exactly what the HTML text-node serialization does. -/
def escapeChar (c : Char) : String :=
  if c == '&' then "&amp;"
  else if c == '<' then "&lt;"
  else if c == '>' then "&gt;"
  else String.singleton c

/-- `escapeChar` mapped over a character list. -/
def escapeHtmlList : List Char → List Char
  | [] => []
  | c :: cs => (escapeChar c).toList ++ escapeHtmlList cs

/-- Modelled from the spec: HTML escaping of a string (see `escapeChar`). -/
def escapeHtml (s : String) : String := String.mk (escapeHtmlList s.toList)

/-- JS `String(b)` for a boolean. -/
def jsStringOfBool (b : Bool) : String := if b then "true" else "false"

/-- `formatValue` (src/kdl/app.js lines 171-185): the dynamic `typeof`
dispatch becomes a match over the closed `Value` sum. -/
def formatValue : Value → String
  | .null => "null"
  | .undef => "null"
  | .str s => "\"" ++ escapeHtml s ++ "\""
  | .num canonical => escapeHtml canonical
  | .bool b => escapeHtml (jsStringOfBool b)
  | .structured jsonForm => escapeHtml jsonForm

/-- The markup pushed for one Argument entry (line 128). -/
def argSnippet (v : Value) : String :=
  "<span class=\"ast-node-value\">" ++ formatValue v ++ "</span>"

/-- The markup pushed for one Property entry (line 125). -/
def propSnippet (key : String) (v : Value) : String :=
  "<span class=\"ast-node-property\">" ++ escapeHtml key ++
  "</span>=<span class=\"ast-node-value\">" ++ formatValue v ++ "</span>"

/-- One iteration of the `node.entries.forEach` loop in
`createNodeElement` (lines 122-130). -/
def snippetStep (acc : List String × List String) (e : Entry) :
    List String × List String :=
  if e.nameTruthy then (acc.1, acc.2 ++ [propSnippet (e.name.getD "") e.value])
  else (acc.1 ++ [argSnippet e.value], acc.2)

/-- The whole snippet-collecting loop, starting from empty `args`/`props`. -/
def collectSnippets (entries : List Entry) : List String × List String :=
  entries.foldl snippetStep ([], [])

/-- The `contentHTML` string built in `createNodeElement`
(lines 115-138): the name span, then the joined argument snippets, then
the joined property snippets. -/
def nodeContentHTML (n : Node) : String :=
  let base := "<span class=\"ast-node-name\">" ++ escapeHtml n.name ++ "</span>"
  if n.entries.length > 0 then
    let s := collectSnippets n.entries
    let withArgs :=
      if s.1.length > 0 then base ++ " " ++ String.intercalate " " s.1 else base
    if s.2.length > 0 then withArgs ++ " " ++ String.intercalate " " s.2
    else withArgs
  else base

/-- `[...path, node.name].join('.')` (lines 89-90): the structural-path
key under which expand/collapse state is stored. -/
def nodeKey (path : List String) (name : String) : String :=
  String.intercalate "." (path ++ [name])

/-- Abstract DOM element tree produced by the renderer: an element with
tag, class and id attributes and child nodes, a region whose `innerHTML`
was assigned a markup string, or a text node (`textContent`). -/
inductive Html where
  | elem (tag : String) (cssClass : String) (idAttr : String) (children : List Html)
  | raw (markup : String)
  | text (s : String)

/-- The header div (lines 94-141): toggle button or spacer, then the
content div holding `contentHTML`. -/
def nodeHeader (hasCh isExpanded : Bool) (n : Node) : Html :=
  Html.elem "div" "ast-node-header" ""
    [if hasCh then
        Html.elem "button" "ast-toggle" ""
          [Html.text (if isExpanded then "▼" else "▶")]
      else Html.elem "span" "ast-toggle no-children" "" [],
      Html.elem "div" "ast-node-content" "" [Html.raw (nodeContentHTML n)]]

mutual

/-- `createNodeElement` (src/kdl/app.js lines 85-158). -/
def createNodeElement (expanded : List String) : Node → List String → Html
  | .mk name entries children, path =>
    let nodeId := nodeKey path name
    let isExpanded := expanded.contains nodeId
    match children with
    | some ns =>
      if ns.length > 0 then
        Html.elem "div" "ast-node" ""
          [nodeHeader true isExpanded (Node.mk name entries children),
            Html.elem "div"
              ("ast-node-children" ++ (if isExpanded then "" else " collapsed"))
              ("children-" ++ nodeId)
              (createNodeElements expanded ns (path ++ [name]))]
      else
        Html.elem "div" "ast-node" ""
          [nodeHeader false isExpanded (Node.mk name entries children)]
    | none =>
      Html.elem "div" "ast-node" ""
        [nodeHeader false isExpanded (Node.mk name entries children)]

/-- `node.children.nodes.forEach(...)` (lines 150-152), as explicit
recursion so the mutual definition is structural. -/
def createNodeElements (expanded : List String) :
    List Node → List String → List Html
  | [], _ => []
  | n :: ns, path =>
    createNodeElement expanded n path :: createNodeElements expanded ns path

end

mutual

/-- Modelled from the spec: the browser's serialization of the DOM tree
built by the renderer; element attributes here are fixed literals, and
text regions serialize with HTML escaping. -/
def htmlToString : Html → String
  | .elem tag cssClass idAttr children =>
    "<" ++ tag ++
    (if cssClass == "" then "" else " class=\"" ++ cssClass ++ "\"") ++
    (if idAttr == "" then "" else " id=\"" ++ idAttr ++ "\"") ++
    ">" ++ htmlListToString children ++ "</" ++ tag ++ ">"
  | .raw markup => markup
  | .text s => escapeHtml s

/-- Serialization of a sibling list. -/
def htmlListToString : List Html → String
  | [] => ""
  | h :: hs => htmlToString h ++ htmlListToString hs

end

/-- The `ast-empty` placeholder shown for empty input (line 46). -/
def astEnterPlaceholder : String :=
  "<div class=\"ast-empty\">Enter KDL to see the AST</div>"

/-- The `ast-empty` placeholder shown on parse failure (line 66). -/
def astErrorPlaceholder : String :=
  "<div class=\"ast-empty\">Fix errors to see the AST</div>"

/-- The `ast-empty` placeholder shown for a document with no nodes (line 74). -/
def astNoNodesPlaceholder : String :=
  "<div class=\"ast-empty\">No nodes in document</div>"

/-- `renderAST` (lines 72-82), as the markup string assigned to the
`ast-content` surface. -/
def renderAST (expanded : List String) (doc : Option Document) : String :=
  match doc with
  | none => astNoNodesPlaceholder
  | some d =>
    if d.nodes.length == 0 then astNoNodesPlaceholder
    else htmlListToString (createNodeElements expanded d.nodes [])

/-- JSON string escaping for quotes and backslashes (see `jsonStringifyDoc`). -/
def jsonEscapeChar (c : Char) : String :=
  if c == '"' then "\\\"" else if c == '\\' then "\\\\" else String.singleton c

/-- A JSON string literal. -/
def jsonQuote (s : String) : String :=
  "\"" ++ String.join (s.toList.map jsonEscapeChar) ++ "\""

/-- The JSON form of a value as `JSON.stringify` would emit it inside the
projected structure. -/
def valueJSON : Value → String
  | .null => "null"
  | .undef => "null"
  | .str s => jsonQuote s
  | .num canonical => canonical
  | .bool b => jsStringOfBool b
  | .structured jsonForm => jsonForm

mutual

/-- Modelled from the spec: `JSON.stringify(jsonData, null, 2)` is a JS
runtime facility outside src/; the spec (§6) requires only a
deterministic structure, not byte-for-byte stability, so a compact
deterministic serialization of the projected node stands in for the
pretty-printed form.  Absent fields are omitted, matching `nodeToJSON`. -/
def projectedNodeJSON : ProjectedNode → String
  | .mk name args props children =>
    "\x7b\"name\":" ++ jsonQuote name ++
    (match args with
      | some l => ",\"arguments\":[" ++ String.intercalate "," (l.map valueJSON) ++ "]"
      | none => "") ++
    (match props with
      | some m =>
        ",\"properties\":\x7b" ++
        String.intercalate ","
          (m.map (fun p => jsonQuote p.1 ++ ":" ++ valueJSON p.2)) ++ "\x7d"
      | none => "") ++
    (match children with
      | some c => ",\"children\":[" ++ projectedNodesJSON c ++ "]"
      | none => "") ++
    "\x7d"

/-- Comma-joined serialization of a projected node list. -/
def projectedNodesJSON : List ProjectedNode → String
  | [] => ""
  | [n] => projectedNodeJSON n
  | n :: ns => projectedNodeJSON n ++ "," ++ projectedNodesJSON ns

end

/-- The serialized projected document (see `projectedNodeJSON`). -/
def jsonStringifyDoc (d : ProjectedDoc) : String :=
  "\x7b\"nodes\":[" ++ projectedNodesJSON d.nodes ++ "]\x7d"

/-- The parser treated as a black box: success carries a `Document`,
failure carries the human-readable `error.message`. -/
inductive ParseOutcome where
  | ok (d : Document)
  | err (msg : String)

/-- The mutable page state touched by `updateViews`, `toggleNode` and the
renderers: the last parsed document, the expand/collapse key set, the two
output surfaces, and the error box (its visibility and its text). -/
structure ViewState where
  currentDocument : Option Document
  expandedNodes : List String
  astContent : String
  jsonContent : String
  errorHidden : Bool
  errorText : String

/-- `expandedNodes.has / delete / add` inside `toggleNode`
(lines 161-168): membership-based removal or insertion. -/
def toggleNode (expanded : List String) (nodeId : String) : List String :=
  if expanded.contains nodeId then expanded.filter (fun x => x != nodeId)
  else expanded ++ [nodeId]

/-- The full toggle action: flip the path's state, then re-render the
tree from the current document (line 167). -/
def toggleNodeAction (st : ViewState) (nodeId : String) : ViewState :=
  let ex := toggleNode st.expandedNodes nodeId
  { st with expandedNodes := ex, astContent := renderAST ex st.currentDocument }

/-- Leading-whitespace removal on a character list (see `jsTrim`). -/
def dropLeadingWs : List Char → List Char
  | [] => []
  | c :: cs => if c.isWhitespace then dropLeadingWs cs else c :: cs

/-- Modelled from the spec: JS `String.prototype.trim` (a runtime builtin
used at line 42), removing whitespace from both ends of the string. -/
def jsTrim (s : String) : String :=
  String.mk ((dropLeadingWs (dropLeadingWs s.toList).reverse).reverse)

/-- `updateViews` (src/kdl/app.js lines 41-69): trim the raw input; empty
input resets both surfaces without parsing; otherwise parse, rendering
both surfaces on success and the error state on failure. -/
def updateViews (parse : String → ParseOutcome) (raw : String)
    (st : ViewState) : ViewState :=
  let input := jsTrim raw
  if input == "" then
    { st with
        currentDocument := none
        astContent := astEnterPlaceholder
        jsonContent := ""
        errorHidden := true }
  else
    match parse input with
    | .ok d =>
      { st with
          currentDocument := some d
          errorHidden := true
          astContent := renderAST st.expandedNodes (some d)
          jsonContent := jsonStringifyDoc (documentToJSON (some d)) }
    | .err msg =>
      { st with
          currentDocument := none
          errorText := "Parse Error: " ++ msg
          errorHidden := false
          astContent := astErrorPlaceholder
          jsonContent := "" }

/-- Modelled from the spec: what the browser renders for the error box is
the HTML-escaped serialization of its `textContent`. -/
def renderedErrorMarkup (st : ViewState) : String := escapeHtml st.errorText

/-- Substring occurrence on character lists: the pattern is a prefix of
some suffix. -/
def listHasInfix (pat : List Char) : List Char → Bool
  | [] => pat.isEmpty
  | c :: cs => pat.isPrefixOf (c :: cs) || listHasInfix pat cs

/-- Substring occurrence on strings (used to state the escaping
properties about rendered markup). -/
def strIncludes (s pat : String) : Bool := listHasInfix pat.toList s.toList

/-- The second child of an element: for a node div produced by
`createNodeElement` this is the children container, when present. -/
def childContainerOf (h : Html) : Option Html :=
  match h with
  | .elem _ _ _ kids => kids[1]?
  | _ => none

/-- The class attribute of an element. -/
def cssClassOf (h : Html) : String :=
  match h with
  | .elem _ c _ _ => c
  | _ => ""

/-- The class of a node div's children container, when present. -/
def containerClassOf (h : Html) : Option String :=
  (childContainerOf h).map cssClassOf

/-- The last entry of a list satisfying a predicate (used to state the
last-write-wins law for the properties object). -/
def lastMatch (q : Entry → Bool) : List Entry → Option Entry
  | [] => none
  | e :: es =>
    match lastMatch q es with
    | some x => some x
    | none => if q e then some e else none

/-- The `args` array built by the `nodeToJSON` loop is the source-ordered
list of values of the entries with falsy names, regardless of
interleaving. -/
theorem foldl_entryStep_fst (es : List Entry) :
    ∀ (a : List Value) (p : List (String × Value)),
    (List.foldl entryStep (a, p) es).1 =
      a ++ (es.filter (fun e => !e.nameTruthy)).map Entry.value := by
  induction es with
  | nil => intro a p; simp
  | cons e es ih =>
    intro a p
    cases he : e.nameTruthy with
    | true => simp [entryStep, he, ih]
    | false => simp [entryStep, he, ih]

/-- `objInsert` never returns the empty object. -/
theorem objInsert_ne_nil (m : List (String × Value)) (k : String) (v : Value) :
    objInsert m k v ≠ [] := by
  cases m with
  | nil => simp [objInsert]
  | cons hd tl =>
    unfold objInsert
    split
    · simp
    · simp

/-- The `props` object built by the `nodeToJSON` loop is empty iff it
started empty and no entry has a truthy name. -/
theorem foldl_entryStep_snd_nil (es : List Entry) :
    ∀ (a : List Value) (p : List (String × Value)),
    ((List.foldl entryStep (a, p) es).2 = [] ↔
      (p = [] ∧ es.filter (fun e => e.nameTruthy) = [])) := by
  induction es with
  | nil => intro a p; simp
  | cons e es ih =>
    intro a p
    cases he : e.nameTruthy with
    | true =>
      simp only [List.foldl_cons, entryStep, he, if_pos, List.filter_cons]
      rw [ih]
      simp [objInsert_ne_nil, he]
    | false =>
      simp only [List.foldl_cons, entryStep, he, List.filter_cons]
      rw [ih]
      simp [he]

/-- The branch on `entries.length > 0` in `nodeToJSON` is redundant: the
loop over an empty list leaves both accumulators empty. -/
theorem entriesLoop_eq (es : List Entry) :
    (if es.length > 0 then collectEntries es else ([], [])) =
      collectEntries es := by
  cases es with
  | nil => simp [collectEntries]
  | cons e es => simp

/-- Unfolding of `nodeToJSON` in terms of the loop result. -/
theorem nodeToJSON_eq (name : String) (entries : List Entry)
    (children : Option (List Node)) :
    nodeToJSON (.mk name entries children) =
      ProjectedNode.mk name
        (if (collectEntries entries).1.length > 0
          then some (collectEntries entries).1 else none)
        (if (collectEntries entries).2.length > 0
          then some (collectEntries entries).2 else none)
        (match children with
          | some ns => if ns.length > 0 then some (nodesToJSON ns) else none
          | none => none) := by
  rw [nodeToJSON.eq_def]
  simp only [entriesLoop_eq]

theorem find?_mapReplace_self (m : List (String × Value)) (k : String) (v : Value)
    (h : m.any (fun p => p.1 == k) = true) :
    (m.map (fun p => if p.1 == k then (k, v) else p)).find? (fun p => p.1 == k) =
      some (k, v) := by
  induction m with
  | nil => simp at h
  | cons hd tl ih =>
    rw [List.map_cons]
    by_cases hk : hd.1 = k
    · rw [List.find?_cons_of_pos]
      · simp [hk]
      · simp [hk]
    · rw [List.find?_cons_of_neg]
      · apply ih
        simp only [List.any_cons] at h
        rcases Bool.or_eq_true_iff.mp h with h1 | h1
        · exact absurd (by simpa using h1) hk
        · exact h1
      · simp [hk]

theorem find?_mapReplace_other (m : List (String × Value)) (k k' : String) (v : Value)
    (hne : k' ≠ k) :
    (m.map (fun p => if p.1 == k then (k, v) else p)).find? (fun p => p.1 == k') =
      m.find? (fun p => p.1 == k') := by
  induction m with
  | nil => simp
  | cons hd tl ih =>
    rw [List.map_cons]
    by_cases hk : hd.1 = k
    · rw [List.find?_cons_of_neg, List.find?_cons_of_neg]
      · exact ih
      · simp [hk]; exact fun h => hne h.symm
      · simp [hk]; exact fun h => hne h.symm
    · cases hm : (hd.1 == k') with
      | true =>
        rw [List.find?_cons_of_pos, List.find?_cons_of_pos]
        · simp [hk]
        · exact hm
        · simp [hk, hm]
      | false =>
        rw [List.find?_cons_of_neg, List.find?_cons_of_neg]
        · exact ih
        · simp [hm]
        · simp [hk, hm]

theorem objGet_objInsert (m : List (String × Value)) (k k' : String) (v : Value) :
    objGet (objInsert m k v) k' = if k' = k then some v else objGet m k' := by
  unfold objInsert objGet
  cases hany : m.any (fun p => p.1 == k) with
  | true =>
    simp only [hany, if_pos]
    by_cases hkk : k' = k
    · subst hkk
      rw [find?_mapReplace_self m k' v hany]
      simp
    · rw [find?_mapReplace_other m k k' v hkk]
      simp [hkk]
  | false =>
    simp only [hany, Bool.false_eq_true, if_neg, not_false_iff]
    rw [List.find?_append]
    by_cases hkk : k' = k
    · subst hkk
      have hnone : m.find? (fun p => p.1 == k') = none := by
        rw [List.find?_eq_none]
        intro x hx
        have := List.any_eq_false.mp (by exact hany) x hx
        simpa using this
      rw [hnone]
      rw [List.find?_cons_of_pos]
      · simp
      · simp
    · cases hfind : m.find? (fun p => p.1 == k') with
      | none =>
        rw [List.find?_cons_of_neg]
        · simp [hkk]
        · simp; exact fun h => hkk h.symm
      | some x =>
        simp [hkk]

/-- Unfolding equation for `lastMatch` on a cons cell. -/
theorem lastMatch_cons (q : Entry → Bool) (e : Entry) (es : List Entry) :
    lastMatch q (e :: es) =
      (match lastMatch q es with
        | some x => some x
        | none => if q e then some e else none) := rfl

/-- Last-write-wins for the `props` object built by the `nodeToJSON`
loop: a key reads as the value of the last truthy-named entry carrying
that key, falling back to the initial object. -/
theorem foldl_entryStep_objGet (es : List Entry) :
    ∀ (a : List Value) (p : List (String × Value)) (k : String),
    objGet ((List.foldl entryStep (a, p) es).2) k =
      (match lastMatch (fun e => e.nameTruthy && (e.name.getD "" == k)) es with
        | some e => some e.value
        | none => objGet p k) := by
  induction es with
  | nil => intro a p k; simp [lastMatch]
  | cons e es ih =>
    intro a p k
    cases he : e.nameTruthy with
    | true =>
      rw [List.foldl_cons]
      have hstep : entryStep (a, p) e = (a, objInsert p (e.name.getD "") e.value) := by
        simp [entryStep, he]
      rw [hstep, ih]
      rw [lastMatch_cons]
      cases hlast : lastMatch (fun e => e.nameTruthy && (e.name.getD "" == k)) es with
      | some x => simp
      | none =>
        simp only [he, Bool.true_and]
        rw [objGet_objInsert]
        cases hkk : (e.name.getD "" == k) with
        | true =>
          rw [if_pos]
          · simp [hkk]
          · exact (eq_of_beq hkk).symm
        | false =>
          rw [if_neg]
          · simp [hkk]
          · intro hcon
            rw [hcon] at hkk
            simp at hkk
    | false =>
      rw [List.foldl_cons]
      have hstep : entryStep (a, p) e = (a ++ [e.value], p) := by
        simp [entryStep, he]
      rw [hstep, ih]
      rw [lastMatch_cons]
      cases hlast : lastMatch (fun e => e.nameTruthy && (e.name.getD "" == k)) es with
      | some x => simp
      | none => simp [he]

/-- The two snippet arrays built by the `createNodeElement` loop are the
source-ordered argument snippets and the source-ordered property
snippets. -/
theorem foldl_snippetStep (es : List Entry) :
    ∀ (a p : List String),
    List.foldl snippetStep (a, p) es =
      (a ++ (es.filter (fun e => !e.nameTruthy)).map (fun e => argSnippet e.value),
       p ++ (es.filter (fun e => e.nameTruthy)).map
         (fun e => propSnippet (e.name.getD "") e.value)) := by
  induction es with
  | nil => intro a p; simp
  | cons e es ih =>
    intro a p
    cases he : e.nameTruthy with
    | true => simp [snippetStep, he, ih]
    | false => simp [snippetStep, he, ih]

/-- If no entry can satisfy the predicate, `lastMatch` finds nothing. -/
theorem lastMatch_of_false (q : Entry → Bool) (hq : ∀ e, q e = false) :
    ∀ es : List Entry, lastMatch q es = none := by
  intro es
  induction es with
  | nil => rfl
  | cons e es ih => simp [lastMatch, ih, hq]

theorem length_pos_if_eq_none (l : List Value) :
    ((if l.length > 0 then some l else none) = none ↔ l.length = 0) := by
  split
  · constructor
    · intro h; exact absurd h (by simp)
    · intro h; omega
  · constructor
    · intro _; omega
    · intro _; rfl

/-- A node with an Argument-classified entry. -/
def emptyKeyNode : Node := .mk "n" [⟨some "", .null⟩] none

/-- C1 as frozen is false on the code: a node whose single entry is
tagged as a Property but carries the empty-string key has zero
tagged-Argument entries, yet the projection emits an `arguments` field
and omits `properties`. -/
theorem c1_tagged_counterexample :
    ¬ (∀ n : Node,
        ((nodeToJSON n).arguments = none ↔
          n.entries.countP (fun e => !e.isPropTagged) = 0) ∧
        ((nodeToJSON n).properties = none ↔
          n.entries.countP (fun e => e.isPropTagged) = 0)) := by
  intro h
  exact absurd (((h emptyKeyNode).2).mp (by decide)) (by decide)

/-- C1, amended to the code's truthiness classification: the projection
omits `arguments` iff no entry has a falsy name, omits `properties` iff no
entry has a truthy name, omits `children` iff there are zero child nodes,
and a present field is never an empty array or empty mapping. -/
theorem c1_field_presence (n : Node) :
    ((nodeToJSON n).arguments = none ↔
      n.entries.countP (fun e => !e.nameTruthy) = 0) ∧
    ((nodeToJSON n).properties = none ↔
      n.entries.countP (fun e => e.nameTruthy) = 0) ∧
    ((nodeToJSON n).children = none ↔ (n.children.getD []).length = 0) ∧
    (nodeToJSON n).arguments ≠ some [] ∧
    (nodeToJSON n).properties ≠ some [] ∧
    (nodeToJSON n).children ≠ some [] := by
  cases n with
  | mk name entries children =>
    rw [nodeToJSON_eq]
    simp only [ProjectedNode.arguments, ProjectedNode.properties,
      ProjectedNode.children, Node.entries, Node.children]
    have hfst : (collectEntries entries).1 =
        (entries.filter (fun e => !e.nameTruthy)).map Entry.value :=
      foldl_entryStep_fst entries [] []
    refine ⟨?_, ?_, ?_, ?_, ?_, ?_⟩
    · rw [hfst]
      rw [length_pos_if_eq_none]
      rw [List.length_map, ← List.countP_eq_length_filter]
    · have hsnd := foldl_entryStep_snd_nil entries [] []
      constructor
      · intro h
        rw [List.countP_eq_length_filter, List.length_eq_zero]
        split at h
        · exact absurd h (by simp)
        · have hlen : (collectEntries entries).2.length = 0 := by omega
          exact (hsnd.mp (List.length_eq_zero.mp hlen)).2
      · intro h
        have hnil : (collectEntries entries).2 = [] := by
          apply hsnd.mpr
          refine ⟨rfl, ?_⟩
          rw [List.countP_eq_length_filter] at h
          exact List.length_eq_zero.mp h
        rw [hnil]
        simp
    · cases children with
      | none => simp
      | some ns =>
        simp only [Option.getD_some]
        split
        · constructor
          · intro h; exact absurd h (by simp)
          · intro h; omega
        · constructor
          · intro _; omega
          · intro _; rfl
    · intro h
      split at h
      next hlen =>
        have hx := Option.some_injective _ h
        rw [hx] at hlen
        simp at hlen
      next => simp at h
    · intro h
      split at h
      next hlen =>
        have hx := Option.some_injective _ h
        rw [hx] at hlen
        simp at hlen
      next => simp at h
    · cases children with
      | none => simp
      | some ns =>
        show (if ns.length > 0 then some (nodesToJSON ns) else none) ≠ some []
        by_cases hlen : ns.length > 0
        · rw [if_pos hlen]
          intro h
          have hj := Option.some_injective _ h
          cases ns with
          | nil => simp at hlen
          | cons hd tl => simp [nodesToJSON] at hj
        · rw [if_neg hlen]
          simp

/-- A single escaped character never contains a raw angle bracket. -/
theorem escapeChar_no_angle (d : Char) :
    ∀ c ∈ (escapeChar d).toList, c ≠ '<' ∧ c ≠ '>' := by
  unfold escapeChar
  by_cases h1 : (d == '&') = true
  · rw [if_pos h1]; decide
  · rw [if_neg h1]
    by_cases h2 : (d == '<') = true
    · rw [if_pos h2]; decide
    · rw [if_neg h2]
      by_cases h3 : (d == '>') = true
      · rw [if_pos h3]; decide
      · rw [if_neg h3]
        intro c hc
        have hcd : c = d := by
          simp [String.singleton] at hc
          exact hc
        subst hcd
        constructor
        · intro hlt; rw [hlt] at h2; simp at h2
        · intro hgt; rw [hgt] at h3; simp at h3

/-- Escaped text never contains a raw angle bracket. -/
theorem escapeHtmlList_no_angle (l : List Char) :
    ∀ c ∈ escapeHtmlList l, c ≠ '<' ∧ c ≠ '>' := by
  induction l with
  | nil => intro c hc; simp [escapeHtmlList] at hc
  | cons d ds ih =>
    intro c hc
    rw [escapeHtmlList] at hc
    rcases List.mem_append.mp hc with h | h
    · exact escapeChar_no_angle d c h
    · exact ih c h

/-- The payload rendered for the canonical attack string. -/
def attackNode : Node :=
  .mk "x" [⟨none, .str "<script>alert(1)</script>"⟩] none

/-- C2: escaping makes live markup impossible — escaped text contains no
raw angle bracket at all, and for the attack string the full entry-region
markup contains no `<script>` but does contain `&lt;script&gt;`. -/
theorem c2_escaping :
    (∀ s : String,
      ((escapeHtml s).toList.all (fun c => c != '<' && c != '>')) = true) ∧
    strIncludes (nodeContentHTML attackNode) "<script>" = false ∧
    strIncludes (nodeContentHTML attackNode) "&lt;script&gt;" = true := by
  refine ⟨?_, by decide, by decide⟩
  intro s
  rw [List.all_eq_true]
  intro c hc
  have h := escapeHtmlList_no_angle s.toList c hc
  simp only [Bool.and_eq_true, bne_iff_ne, ne_eq]
  exact ⟨h.1, h.2⟩

/-- C4: the value-formatting function, case by case: null/absent render
as the literal `null`; strings are escaped and quoted; numbers and
booleans are the escaping of their canonical string form; structured
values are the escaping of their JSON string form. -/
theorem c4_formatValue (s canonical jsonForm : String) (b : Bool) :
    formatValue Value.null = "null" ∧
    formatValue Value.undef = "null" ∧
    formatValue (Value.str s) = "\"" ++ escapeHtml s ++ "\"" ∧
    formatValue (Value.num canonical) = escapeHtml canonical ∧
    formatValue (Value.bool b) = escapeHtml (jsStringOfBool b) ∧
    formatValue (Value.structured jsonForm) = escapeHtml jsonForm :=
  ⟨rfl, rfl, rfl, rfl, rfl, rfl⟩

/-- C5: the projection is total by construction; `project` maps both a
null document and an empty document to `{ nodes: [] }`, and a node with
no entries and no children projects to its name alone. -/
theorem c5_totality (nm : String) :
    project none = ⟨[]⟩ ∧
    project (some ⟨[]⟩) = ⟨[]⟩ ∧
    nodeToJSON (Node.mk nm [] none) = ProjectedNode.mk nm none none none :=
  ⟨rfl, rfl, rfl⟩

/-- C9: an entry whose property key is the empty string has a falsy name,
so both the projection and the tree rendering classify it as an Argument,
and the empty string never occurs as a key of the properties object. -/
theorem c9_empty_key_is_argument (nm : String) (v : Value) :
    (Entry.mk (some "") v).nameTruthy = false ∧
    nodeToJSON (Node.mk nm [⟨some "", v⟩] none) =
      ProjectedNode.mk nm (some [v]) none none ∧
    collectSnippets [⟨some "", v⟩] = ([argSnippet v], []) ∧
    (∀ es : List Entry, objGet (collectEntries es).2 "" = none) := by
  refine ⟨rfl, rfl, rfl, ?_⟩
  intro es
  have hq : ∀ e : Entry, (e.nameTruthy && (e.name.getD "" == "")) = false := by
    intro e
    cases he : e.name with
    | none => simp [Entry.nameTruthy, he]
    | some s =>
      by_cases hs : s = ""
      · simp [Entry.nameTruthy, he, hs]
      · simp [Entry.nameTruthy, he, hs]
  unfold collectEntries
  rw [foldl_entryStep_objGet es [] [] ""]
  rw [lastMatch_of_false _ hq es]
  simp [objGet]

/-- C3: source-order and grouping.  The projected `arguments` array is
the source-ordered list of argument values; reading any key of the
properties object yields the value of the last truthy-named entry with
that key (later duplicates overwrite earlier ones); the rendered snippet
arrays keep source order within each kind; and the entry-region markup
places the complete argument group before the complete property group,
even when the kinds are interleaved in the entry list. -/
theorem c3_order_and_grouping (n : Node) (k : String) :
    (nodeToJSON n).arguments =
      (if ((n.entries.filter (fun e => !e.nameTruthy)).map Entry.value).length > 0
        then some ((n.entries.filter (fun e => !e.nameTruthy)).map Entry.value)
        else none) ∧
    objGet (collectEntries n.entries).2 k =
      (match lastMatch (fun e => e.nameTruthy && (e.name.getD "" == k)) n.entries with
        | some e => some e.value
        | none => none) ∧
    (collectSnippets n.entries).1 =
      (n.entries.filter (fun e => !e.nameTruthy)).map (fun e => argSnippet e.value) ∧
    (collectSnippets n.entries).2 =
      (n.entries.filter (fun e => e.nameTruthy)).map
        (fun e => propSnippet (e.name.getD "") e.value) ∧
    nodeContentHTML n =
      ("<span class=\"ast-node-name\">" ++ escapeHtml n.name ++ "</span>") ++
      (if ((n.entries.filter (fun e => !e.nameTruthy)).map
            (fun e => argSnippet e.value)).length > 0
        then " " ++ String.intercalate " "
          ((n.entries.filter (fun e => !e.nameTruthy)).map
            (fun e => argSnippet e.value))
        else "") ++
      (if ((n.entries.filter (fun e => e.nameTruthy)).map
            (fun e => propSnippet (e.name.getD "") e.value)).length > 0
        then " " ++ String.intercalate " "
          ((n.entries.filter (fun e => e.nameTruthy)).map
            (fun e => propSnippet (e.name.getD "") e.value))
        else "") := by
  cases n with
  | mk name entries children =>
    simp only [Node.entries, Node.name]
    have hfst : (collectEntries entries).1 =
        (entries.filter (fun e => !e.nameTruthy)).map Entry.value := by
      unfold collectEntries
      rw [foldl_entryStep_fst entries [] []]
      simp
    have hsnip : collectSnippets entries =
        ((entries.filter (fun e => !e.nameTruthy)).map (fun e => argSnippet e.value),
         (entries.filter (fun e => e.nameTruthy)).map
           (fun e => propSnippet (e.name.getD "") e.value)) := by
      unfold collectSnippets
      rw [foldl_snippetStep entries [] []]
      simp
    refine ⟨?_, ?_, ?_, ?_, ?_⟩
    · rw [nodeToJSON_eq]
      simp only [ProjectedNode.arguments]
      rw [hfst]
    · unfold collectEntries
      rw [foldl_entryStep_objGet entries [] [] k]
      cases lastMatch (fun e => e.nameTruthy && (e.name.getD "" == k)) entries with
      | some e => rfl
      | none => simp [objGet]
    · rw [hsnip]
    · rw [hsnip]
    · unfold nodeContentHTML
      simp only [Node.entries, Node.name]
      cases entries with
      | nil => simp
      | cons e es =>
        rw [if_pos (by simp)]
        rw [hsnip]
        by_cases ha :
            (((e :: es).filter (fun e => !e.nameTruthy)).map
              (fun e => argSnippet e.value)).length > 0
        · rw [if_pos ha, if_pos ha]
          by_cases hp :
              (((e :: es).filter (fun e => e.nameTruthy)).map
                (fun e => propSnippet (e.name.getD "") e.value)).length > 0
          · rw [if_pos hp, if_pos hp]
            simp only [String.append_assoc]
          · rw [if_neg hp, if_neg hp]
            simp only [String.append_assoc, String.append_empty]
        · rw [if_neg ha, if_neg ha]
          by_cases hp :
              (((e :: es).filter (fun e => e.nameTruthy)).map
                (fun e => propSnippet (e.name.getD "") e.value)).length > 0
          · rw [if_pos hp, if_pos hp]
            simp only [String.append_assoc, String.empty_append]
          · rw [if_neg hp, if_neg hp]
            simp only [String.append_assoc, String.append_empty]

/-- C6: on any parse failure, the error box shows the fixed prefix plus
the parser's message (escaped in the rendered markup), the tree surface
shows the error placeholder, the JSON surface becomes empty text, and the
previously parsed document is discarded — no stale content survives,
whatever the prior state was. -/
theorem c6_parse_failure (parse : String → ParseOutcome) (raw : String)
    (st : ViewState) (msg : String)
    (h1 : jsTrim raw ≠ "") (h2 : parse (jsTrim raw) = ParseOutcome.err msg) :
    updateViews parse raw st =
      { st with
          currentDocument := none
          errorHidden := false
          errorText := "Parse Error: " ++ msg
          astContent := astErrorPlaceholder
          jsonContent := "" } ∧
    renderedErrorMarkup (updateViews parse raw st) =
      escapeHtml ("Parse Error: " ++ msg) := by
  have hmain : updateViews parse raw st =
      { st with
          currentDocument := none
          errorHidden := false
          errorText := "Parse Error: " ++ msg
          astContent := astErrorPlaceholder
          jsonContent := "" } := by
    simp only [updateViews]
    rw [if_neg (by simpa using h1)]
    rw [h2]
  exact ⟨hmain, by rw [hmain]; rfl⟩

/-- A state carrying earlier successful output, used to check that error
and empty states purge it. -/
def staleState : ViewState :=
  ⟨some ⟨[.mk "old" [] none]⟩, ["k"], "stale tree", "stale json", true, "prior"⟩

/-- Witness for C6 at a concrete failing parse. -/
theorem c6_parse_failure_witness :
    updateViews (fun _ => ParseOutcome.err "boom") "bad" staleState =
      { staleState with
          currentDocument := none
          errorHidden := false
          errorText := "Parse Error: boom"
          astContent := astErrorPlaceholder
          jsonContent := "" } ∧
    renderedErrorMarkup
        (updateViews (fun _ => ParseOutcome.err "boom") "bad" staleState) =
      escapeHtml ("Parse Error: boom") :=
  c6_parse_failure (fun _ => ParseOutcome.err "boom") "bad" staleState "boom"
    (by decide) (by rfl)

/-- C7: for empty or whitespace-only raw input, no parse happens (the
result is the same for every parser), the error box stays hidden, the
tree surface shows the enter-input placeholder, the JSON surface is empty
text, and this placeholder differs from the parse-error placeholder. -/
theorem c7_empty_input (parse parse2 : String → ParseOutcome) (raw : String)
    (st : ViewState) (h : jsTrim raw = "") :
    updateViews parse raw st =
      { st with
          currentDocument := none
          astContent := astEnterPlaceholder
          jsonContent := ""
          errorHidden := true } ∧
    updateViews parse raw st = updateViews parse2 raw st ∧
    astEnterPlaceholder ≠ astErrorPlaceholder := by
  have hmain : ∀ pf : String → ParseOutcome,
      updateViews pf raw st =
        { st with
            currentDocument := none
            astContent := astEnterPlaceholder
            jsonContent := ""
            errorHidden := true } := by
    intro pf
    simp only [updateViews]
    rw [if_pos (by simp [h])]
  exact ⟨hmain parse, (hmain parse).trans (hmain parse2).symm, by decide⟩

/-- Witness for C7 at concrete whitespace-only input. -/
theorem c7_empty_input_witness :
    updateViews (fun _ => ParseOutcome.err "x") "  " staleState =
      { staleState with
          currentDocument := none
          astContent := astEnterPlaceholder
          jsonContent := ""
          errorHidden := true } ∧
    updateViews (fun _ => ParseOutcome.err "x") "  " staleState =
      updateViews (fun _ => ParseOutcome.ok ⟨[]⟩) "  " staleState ∧
    astEnterPlaceholder ≠ astErrorPlaceholder :=
  c7_empty_input (fun _ => ParseOutcome.err "x") (fun _ => ParseOutcome.ok ⟨[]⟩)
    "  " staleState (by decide)

/-- `contains` is false when the element is absent. -/
theorem contains_false_of_not_mem (l : List String) (a : String) (h : a ∉ l) :
    l.contains a = false := by
  cases hc : l.contains a with
  | false => rfl
  | true => exact absurd (List.elem_iff.mp hc) h

/-- Filtering out a path removes it from the membership set. -/
theorem contains_filter_self (s : List String) (p : String) :
    (s.filter (fun x => x != p)).contains p = false := by
  apply contains_false_of_not_mem
  intro hmem
  have := (List.mem_filter.mp hmem).2
  simp at this

/-- Filtering out one path leaves every other path's membership alone. -/
theorem contains_filter_ne (s : List String) (p q : String) (hq : q ≠ p) :
    (s.filter (fun x => x != p)).contains q = s.contains q := by
  apply Bool.eq_iff_iff.mpr
  rw [List.elem_iff, List.elem_iff]
  constructor
  · intro hm
    exact (List.mem_filter.mp hm).1
  · intro hm
    exact List.mem_filter.mpr ⟨hm, by simp [hq]⟩

/-- Appending a path makes it a member. -/
theorem contains_append_self (s : List String) (p : String) :
    (s ++ [p]).contains p = true :=
  List.elem_iff.mpr (List.mem_append.mpr (Or.inr (List.mem_singleton.mpr rfl)))

/-- Appending one path leaves every other path's membership alone. -/
theorem contains_append_ne (s : List String) (p q : String) (hq : q ≠ p) :
    (s ++ [p]).contains q = s.contains q := by
  apply Bool.eq_iff_iff.mpr
  rw [List.elem_iff, List.elem_iff]
  constructor
  · intro hm
    rcases List.mem_append.mp hm with hm | hm
    · exact hm
    · exact absurd (List.mem_singleton.mp hm) hq
  · intro hm
    exact List.mem_append.mpr (Or.inl hm)

/-- Toggling a path flips the stored state for exactly that path and
leaves every other path's state unchanged. -/
theorem toggleNode_contains (s : List String) (p q : String) :
    (toggleNode s p).contains q =
      if q = p then !(s.contains p) else s.contains q := by
  unfold toggleNode
  cases hc : s.contains p with
  | true =>
    rw [if_pos rfl]
    by_cases hq : q = p
    · subst hq
      rw [if_pos rfl]
      exact contains_filter_self s q
    · rw [if_neg hq]
      exact contains_filter_ne s p q hq
  | false =>
    rw [if_neg (by simp)]
    by_cases hq : q = p
    · subst hq
      rw [if_pos rfl]
      exact contains_append_self s q
    · rw [if_neg hq]
      exact contains_append_ne s p q hq

/-- A path that no toggle action ever names is never in the state built
from the initial set it was absent from. -/
theorem foldl_toggle_fresh (ts : List String) :
    ∀ (p : String) (s : List String), p ∉ ts → s.contains p = false →
    ((ts.foldl toggleNode s).contains p) = false := by
  induction ts with
  | nil =>
    intro p s _ hs
    simpa using hs
  | cons t ts ih =>
    intro p s hmem hs
    rw [List.foldl_cons]
    apply ih p _ (fun hx => hmem (List.mem_cons_of_mem t hx))
    rw [toggleNode_contains]
    rw [if_neg (show ¬ p = t from
      fun he => hmem (by rw [he]; exact List.mem_cons_self t ts))]
    exact hs

/-- The children container emitted for a node with children: its class is
`collapsed` exactly when the node's structural key is not in the
expand/collapse set, and its id is derived from that key. -/
theorem createNodeElement_container (ex : List String) (n : Node)
    (path : List String) (h : n.hasChildren = true) :
    childContainerOf (createNodeElement ex n path) =
      some (Html.elem "div"
        ("ast-node-children" ++
          (if ex.contains (nodeKey path n.name) then "" else " collapsed"))
        ("children-" ++ nodeKey path n.name)
        (createNodeElements ex (n.children.getD []) (path ++ [n.name]))) := by
  cases n with
  | mk name entries children =>
    cases children with
    | none => simp [Node.hasChildren, Node.children] at h
    | some ns =>
      have hlen : ns.length > 0 := by
        simpa [Node.hasChildren, Node.children] using h
      simp only [createNodeElement]
      rw [if_pos hlen]
      simp [childContainerOf, Node.name, Node.children]

/-- C8: expand/collapse state.  A toggle flips exactly the named path's
membership; a path never toggled stays out of the state built from the
empty initial set (so it renders collapsed, by the container law); the
children container's class is `collapsed` exactly when the path's key is
absent from the set; re-renders triggered by input updates never change
the set; and the toggle action changes the set exactly by `toggleNode`. -/
theorem c8_expand_collapse :
    (∀ (s : List String) (p q : String),
      (toggleNode s p).contains q =
        if q = p then !(s.contains p) else s.contains q) ∧
    (∀ (ts : List String) (p : String), p ∉ ts →
      ((ts.foldl toggleNode []).contains p) = false) ∧
    (∀ (ex : List String) (n : Node) (path : List String),
      n.hasChildren = true →
      childContainerOf (createNodeElement ex n path) =
        some (Html.elem "div"
          ("ast-node-children" ++
            (if ex.contains (nodeKey path n.name) then "" else " collapsed"))
          ("children-" ++ nodeKey path n.name)
          (createNodeElements ex (n.children.getD []) (path ++ [n.name])))) ∧
    (∀ (parse : String → ParseOutcome) (raw : String) (st : ViewState),
      (updateViews parse raw st).expandedNodes = st.expandedNodes) ∧
    (∀ (st : ViewState) (p : String),
      (toggleNodeAction st p).expandedNodes = toggleNode st.expandedNodes p) := by
  refine ⟨toggleNode_contains, ?_, createNodeElement_container, ?_, ?_⟩
  · intro ts p hmem
    exact foldl_toggle_fresh ts p [] hmem rfl
  · intro parse raw st
    simp only [updateViews]
    by_cases hc : (jsTrim raw == "") = true
    · rw [if_pos hc]
    · rw [if_neg hc]
      cases parse (jsTrim raw) <;> rfl
  · intro st p
    rfl

/-- Witness for C8 at concrete states, paths and nodes. -/
theorem c8_expand_collapse_witness :
    (toggleNode ["a", "b"] "b").contains "b" = false ∧
    ((["x"] : List String).foldl toggleNode []).contains "y" = false ∧
    childContainerOf (createNodeElement []
        (Node.mk "parent" [] (some [Node.mk "child" [] none])) []) =
      some (Html.elem "div" "ast-node-children collapsed" "children-parent"
        (createNodeElements [] [Node.mk "child" [] none] ["parent"])) ∧
    (updateViews (fun _ => ParseOutcome.err "e") "y" staleState).expandedNodes =
      ["k"] ∧
    (toggleNodeAction staleState "k").expandedNodes = toggleNode ["k"] "k" := by
  have h := c8_expand_collapse
  refine ⟨?_, ?_, ?_, ?_, ?_⟩
  · exact (h.1 ["a", "b"] "b" "b").trans (by decide)
  · exact h.2.1 ["x"] "y" (by decide)
  · exact (h.2.2.1 []
      (Node.mk "parent" [] (some [Node.mk "child" [] none])) [] (by decide)).trans
      (by rfl)
  · exact (h.2.2.2.1 (fun _ => ParseOutcome.err "e") "y" staleState).trans (by rfl)
  · exact (h.2.2.2.2 staleState "k").trans (by rfl)

/-- C10: the structural-path key is not injective.  The concrete root
node `a.b` collides with node `b` under root `a`; the colliding pair of
positions is distinct; two sibling nodes with the same name under the
same parent get the same container state for every expand/collapse set,
whatever their entries and children; and any set membership read through
the two colliding keys agrees. -/
theorem c10_path_key_not_injective :
    nodeKey [] "a.b" = nodeKey ["a"] "b" ∧
    ((([] : List String), "a.b") ≠ (((["a"] : List String)), "b")) ∧
    (∀ (ex path : List String) (nm : String) (e1 e2 : List Entry)
        (c1 c2 : Option (List Node)),
      (Node.mk nm e1 c1).hasChildren = true →
      (Node.mk nm e2 c2).hasChildren = true →
      containerClassOf (createNodeElement ex (Node.mk nm e1 c1) path) =
        containerClassOf (createNodeElement ex (Node.mk nm e2 c2) path)) ∧
    (∀ ex : List String,
      ex.contains (nodeKey [] "a.b") = ex.contains (nodeKey ["a"] "b")) := by
  refine ⟨by decide, by decide, ?_, ?_⟩
  · intro ex path nm e1 e2 c1 c2 h1 h2
    unfold containerClassOf
    rw [createNodeElement_container ex _ path h1,
      createNodeElement_container ex _ path h2]
    rfl
  · intro ex
    rw [show nodeKey [] "a.b" = nodeKey ["a"] "b" from by decide]

/-- Witness for C10: two same-named siblings with different entries and
children share their container state under a concrete set. -/
theorem c10_witness :
    containerClassOf (createNodeElement ["s"]
        (Node.mk "s" [] (some [Node.mk "c1" [] none])) []) =
      containerClassOf (createNodeElement ["s"]
        (Node.mk "s" [⟨none, Value.null⟩]
          (some [Node.mk "c2" [] none, Node.mk "c3" [] none])) []) :=
  c10_path_key_not_injective.2.2.1 ["s"] [] "s" [] [⟨none, Value.null⟩]
    (some [Node.mk "c1" [] none])
    (some [Node.mk "c2" [] none, Node.mk "c3" [] none]) (by decide) (by decide)
